import Mathlib

/-!
Shallow embedding of `fsma::array_3d<T, D1, D2, D3>` from `array_3d.hpp`.

The C++ container stores `T elems[D1][D2][D3]`, a contiguous block of
`D1*D2*D3` elements in row-major order: `elems[i][j][k]` sits at flat
offset `i*D2*D3 + j*D3 + k`, and `begin()`/`end()` iterate that flat
block from offset `0` to offset `D1*D2*D3`.  We embed the storage as a
flat list of length `D1*D2*D3`; the 3-coordinate accessors index it at
the row-major offset, exactly as the built-in C array layout does.
-/

namespace fsma

/-- Row-major flat offset of coordinates `(i,j,k)` in a `D1 x D2 x D3`
built-in C array: `i*D2*D3 + j*D3 + k`. -/
def offset (D2 D3 i j k : ℕ) : ℕ := i * (D2 * D3) + j * D3 + k

/-- The contiguous storage of `array_3d<T,D1,D2,D3>`: the flat row-major
view of the member `T elems[D1][D2][D3]`, hence exactly `D1*D2*D3`
elements. -/
structure array_3d (T : Type) (D1 D2 D3 : ℕ) where
  elems : List T
  len_eq : elems.length = D1 * D2 * D3

variable {T T2 : Type} {D1 D2 D3 : ℕ}

theorem offset_lt {i j k : ℕ} (hi : i < D1) (hj : j < D2) (hk : k < D3) :
    offset D2 D3 i j k < D1 * D2 * D3 := by
  unfold offset
  have hj1 : (j + 1) * D3 ≤ D2 * D3 := Nat.mul_le_mul_right _ hj
  rw [Nat.add_mul, Nat.one_mul] at hj1
  have hi1 : (i + 1) * (D2 * D3) ≤ D1 * (D2 * D3) := Nat.mul_le_mul_right _ hi
  rw [Nat.add_mul, Nat.one_mul] at hi1
  have h3 : D1 * (D2 * D3) = D1 * D2 * D3 := by ring
  omega

/-- `std::fill_n(first, n, value)`: assigns `value` to the first `n`
elements of the range; here the range is the flat storage. -/
def std_fill_n : ℕ → T → List T → List T
  | 0, _, xs => xs
  | _ + 1, _, [] => []
  | n + 1, v, _ :: xs => v :: std_fill_n n v xs

/-- `std::swap_ranges(first1, last1, first2)`: swaps each element of the
first range with the corresponding element of the second; returns both
resulting ranges. -/
def std_swap_ranges : List T → List T → List T × List T
  | [], ys => ([], ys)
  | xs, [] => (xs, [])
  | x :: xs, y :: ys =>
    let p := std_swap_ranges xs ys
    (y :: p.1, x :: p.2)

/-- `std::copy(first, last, dest)` where each assignment `*dest = *src`
applies the element conversion `conv : T2 → T`; returns the overwritten
destination range. -/
def std_copy (conv : T2 → T) : List T2 → List T → List T
  | [], ds => ds
  | _ :: _, [] => []
  | s :: ss, _ :: ds => conv s :: std_copy conv ss ds

/-- `std::equal(first1, last1, first2)`: element-wise equality of the
first range against the start of the second. -/
def std_equal [DecidableEq T] : List T → List T → Bool
  | [], _ => true
  | _ :: _, [] => false
  | x :: xs, y :: ys => if x = y then std_equal xs ys else false

/-- `std::lexicographical_compare(first1, last1, first2, last2)` using
`operator<` on elements: steps through both ranges; the first position
where one element is `<` the other decides, and if the first range is
exhausted the result is whether the second still has elements. -/
def std_lex_compare [LinearOrder T] : List T → List T → Bool
  | _, [] => false
  | [], _ :: _ => true
  | x :: xs, y :: ys =>
    if y < x then false
    else if x < y then true
    else std_lex_compare xs ys

theorem std_fill_n_length (v : T) :
    ∀ (n : ℕ) (xs : List T), (std_fill_n n v xs).length = xs.length
  | 0, _ => rfl
  | _ + 1, [] => rfl
  | n + 1, _ :: xs => by
    simp [std_fill_n, std_fill_n_length v n xs]

theorem std_fill_n_all (v : T) :
    ∀ (n : ℕ) (xs : List T), xs.length ≤ n →
      std_fill_n n v xs = List.replicate xs.length v
  | 0, [], _ => rfl
  | _ + 1, [], _ => rfl
  | 0, _ :: _, h => by simp at h
  | n + 1, _ :: xs, h => by
    simp only [std_fill_n, List.length_cons, List.replicate_succ,
      List.cons.injEq, true_and]
    exact std_fill_n_all v n xs (by simpa using h)

theorem std_swap_ranges_eq :
    ∀ (xs ys : List T), xs.length = ys.length →
      std_swap_ranges xs ys = (ys, xs)
  | [], [], _ => rfl
  | [], _ :: _, h => by simp at h
  | _ :: _, [], h => by simp at h
  | x :: xs, y :: ys, h => by
    have ih := std_swap_ranges_eq xs ys (by simpa using h)
    simp [std_swap_ranges, ih]

theorem std_copy_length (conv : T2 → T) :
    ∀ (ss : List T2) (ds : List T), (std_copy conv ss ds).length = ds.length
  | [], _ => rfl
  | _ :: _, [] => rfl
  | s :: ss, d :: ds => by
    simp [std_copy, std_copy_length conv ss ds]

theorem std_copy_map (conv : T2 → T) :
    ∀ (ss : List T2) (ds : List T), ss.length = ds.length →
      std_copy conv ss ds = ss.map conv
  | [], [], _ => rfl
  | [], _ :: _, h => by simp at h
  | _ :: _, [], h => by simp at h
  | s :: ss, d :: ds, h => by
    have ih := std_copy_map conv ss ds (by simpa using h)
    simp [std_copy, ih]

theorem std_equal_iff [DecidableEq T] :
    ∀ (xs ys : List T), xs.length = ys.length →
      (std_equal xs ys = true ↔ xs = ys)
  | [], [], _ => by simp [std_equal]
  | [], _ :: _, h => by simp at h
  | _ :: _, [], h => by simp at h
  | x :: xs, y :: ys, h => by
    have ih := std_equal_iff xs ys (by simpa using h)
    by_cases hxy : x = y
    · simp [std_equal, hxy, ih]
    · simp [std_equal, hxy]

namespace array_3d

/-- The element sequence visited iterating from `begin()` to `end()`:
the flat storage in row-major order. -/
def toList (a : array_3d T D1 D2 D3) : List T := a.elems

/-- `size()`: returns `D1*D2*D3`. -/
def size (a : array_3d T D1 D2 D3) : ℕ := D1 * D2 * D3

/-- `max_size()`: returns `D1*D2*D3`. -/
def max_size (a : array_3d T D1 D2 D3) : ℕ := D1 * D2 * D3

/-- `size_1d()`: returns `D1`. -/
def size_1d (a : array_3d T D1 D2 D3) : ℕ := D1

/-- `size_2d()`: returns `D2`. -/
def size_2d (a : array_3d T D1 D2 D3) : ℕ := D2

/-- `size_3d()`: returns `D3`. -/
def size_3d (a : array_3d T D1 D2 D3) : ℕ := D3

/-- `empty()`: returns `false` unconditionally. -/
def empty (a : array_3d T D1 D2 D3) : Bool := false

/-- `operator()(i,j,k)`: unchecked access, reads `elems[i][j][k]`;
meaningful only for in-range coordinates (out of range is undefined
behavior in the source), so the bounds are hypotheses. -/
def opCall (a : array_3d T D1 D2 D3) (i j k : ℕ)
    (hi : i < D1) (hj : j < D2) (hk : k < D3) : T :=
  a.elems.get ⟨offset D2 D3 i j k, by rw [a.len_eq]; exact offset_lt hi hj hk⟩

/-- `at(i,j,k)`: range-checked access.  Throws
`std::out_of_range("array_3d: index out of range")` when
`D1 <= i || D2 <= j || D3 <= k`, otherwise returns `elems[i][j][k]`. -/
def at_ (a : array_3d T D1 D2 D3) (i j k : ℕ) : Except String T :=
  if h : D1 ≤ i ∨ D2 ≤ j ∨ D3 ≤ k then
    Except.error "array_3d: index out of range"
  else
    Except.ok (a.opCall i j k (by omega) (by omega) (by omega))

/-- `at(i,j,k)` with the post-state made explicit: the member body is a
bounds test followed by a read, with no write to `this`, so each branch
returns the incoming storage unchanged. -/
def atSt (a : array_3d T D1 D2 D3) (i j k : ℕ) :
    Except String T × array_3d T D1 D2 D3 :=
  if h : D1 ≤ i ∨ D2 ≤ j ∨ D3 ≤ k then
    (Except.error "array_3d: index out of range", a)
  else
    (Except.ok (a.opCall i j k (by omega) (by omega) (by omega)), a)

/-- `front()`: reads `elems[0][0][0]`; meaningful only when every
dimension is positive. -/
def front (a : array_3d T D1 D2 D3)
    (h1 : 0 < D1) (h2 : 0 < D2) (h3 : 0 < D3) : T :=
  a.opCall 0 0 0 h1 h2 h3

/-- `back()`: reads `elems[D1-1][D2-1][D3-1]`; meaningful only when
every dimension is positive. -/
def back (a : array_3d T D1 D2 D3)
    (h1 : 0 < D1) (h2 : 0 < D2) (h3 : 0 < D3) : T :=
  a.opCall (D1 - 1) (D2 - 1) (D3 - 1) (by omega) (by omega) (by omega)

/-- `fill(value)`: `std::fill_n(&elems[0][0][0], size(), value)`. -/
def fill (a : array_3d T D1 D2 D3) (value : T) : array_3d T D1 D2 D3 :=
  ⟨std_fill_n (D1 * D2 * D3) value a.elems, by
    rw [std_fill_n_length]; exact a.len_eq⟩

/-- `assign(value)`: a synonym for `fill`. -/
def assign (a : array_3d T D1 D2 D3) (value : T) : array_3d T D1 D2 D3 :=
  a.fill value

/-- `swap(y)`: `std::swap_ranges(begin(), end(), y.begin())`; returns the
post-states of `this` and `y`. -/
def swap (x y : array_3d T D1 D2 D3) :
    array_3d T D1 D2 D3 × array_3d T D1 D2 D3 :=
  have hlen : x.elems.length = y.elems.length := by rw [x.len_eq, y.len_eq]
  (⟨(std_swap_ranges x.elems y.elems).1, by
      rw [std_swap_ranges_eq x.elems y.elems hlen]; exact y.len_eq⟩,
   ⟨(std_swap_ranges x.elems y.elems).2, by
      rw [std_swap_ranges_eq x.elems y.elems hlen]; exact x.len_eq⟩)

/-- `operator=(rhs)` for `array_3d<T2,D1,D2,D3>` (converting assignment):
`std::copy(rhs.begin(), rhs.end(), begin())`, each element converted by
`conv : T2 → T` (the implicit `T2`-to-`T` conversion in C++). -/
def assign_op (dest : array_3d T D1 D2 D3) (conv : T2 → T)
    (rhs : array_3d T2 D1 D2 D3) : array_3d T D1 D2 D3 :=
  ⟨std_copy conv rhs.elems dest.elems, by
    rw [std_copy_length]; exact dest.len_eq⟩

end array_3d

/-- Free `operator==`: `std::equal(x.begin(), x.end(), y.begin())`. -/
def eq_op [DecidableEq T] (x y : array_3d T D1 D2 D3) : Bool :=
  std_equal x.elems y.elems

/-- Free `operator!=`: `!(x == y)`. -/
def ne_op [DecidableEq T] (x y : array_3d T D1 D2 D3) : Bool :=
  !(eq_op x y)

/-- Free `operator<`:
`std::lexicographical_compare(x.begin(), x.end(), y.begin(), y.end())`. -/
def lt_op [LinearOrder T] (x y : array_3d T D1 D2 D3) : Bool :=
  std_lex_compare x.elems y.elems

/-- Free `operator>`: `y < x`. -/
def gt_op [LinearOrder T] (x y : array_3d T D1 D2 D3) : Bool :=
  lt_op y x

/-- Free `operator<=`: `!(y < x)`. -/
def le_op [LinearOrder T] (x y : array_3d T D1 D2 D3) : Bool :=
  !(lt_op y x)

/-- Free `operator>=`: `!(x < y)`. -/
def ge_op [LinearOrder T] (x y : array_3d T D1 D2 D3) : Bool :=
  !(lt_op x y)

/-- The spec's wording of lexicographic order for equal-length sequences:
the sequences share a common prefix (so every earlier flattened position
holds equal elements) and at the first differing position the left
element is strictly below the right one. -/
def lex_first_diff [LinearOrder T] (xs ys : List T) : Prop :=
  ∃ (p : List T) (d1 d2 : T) (t1 t2 : List T),
    xs = p ++ d1 :: t1 ∧ ys = p ++ d2 :: t2 ∧ d1 < d2

theorem std_lex_compare_irrefl [LinearOrder T] :
    ∀ xs : List T, std_lex_compare xs xs = false
  | [] => rfl
  | x :: xs => by
    simp [std_lex_compare, lt_irrefl, std_lex_compare_irrefl xs]

theorem std_lex_compare_iff [LinearOrder T] :
    ∀ (xs ys : List T), xs.length = ys.length →
      (std_lex_compare xs ys = true ↔ lex_first_diff xs ys)
  | [], [], _ => by
    constructor
    · intro h; simp [std_lex_compare] at h
    · rintro ⟨p, d1, d2, t1, t2, e1, e2, hd⟩
      exact absurd e1 (by simp)
  | [], _ :: _, h => by simp at h
  | _ :: _, [], h => by simp at h
  | x :: xs, y :: ys, h => by
    have ih := std_lex_compare_iff xs ys (by simpa using h)
    rcases lt_trichotomy x y with hlt | heq | hgt
    · constructor
      · intro _
        exact ⟨[], x, y, xs, ys, rfl, rfl, hlt⟩
      · intro _
        simp [std_lex_compare, hlt, asymm hlt]
    · subst heq
      have step : std_lex_compare (x :: xs) (x :: ys) = std_lex_compare xs ys := by
        simp [std_lex_compare, lt_irrefl]
      rw [step, ih]
      constructor
      · rintro ⟨p, d1, d2, t1, t2, e1, e2, hd⟩
        exact ⟨x :: p, d1, d2, t1, t2, by rw [e1]; rfl, by rw [e2]; rfl, hd⟩
      · rintro ⟨p, d1, d2, t1, t2, e1, e2, hd⟩
        cases p with
        | nil =>
          simp only [List.nil_append] at e1 e2
          injection e1 with ex _
          injection e2 with ey _
          rw [← ex, ← ey] at hd
          exact absurd hd (lt_irrefl x)
        | cons q p =>
          simp only [List.cons_append] at e1 e2
          injection e1 with _ et1
          injection e2 with _ et2
          exact ⟨p, d1, d2, t1, t2, et1, et2, hd⟩
    · constructor
      · intro hc
        simp [std_lex_compare, hgt] at hc
      · rintro ⟨p, d1, d2, t1, t2, e1, e2, hd⟩
        cases p with
        | nil =>
          simp only [List.nil_append] at e1 e2
          injection e1 with ex _
          injection e2 with ey _
          subst ex
          subst ey
          exact absurd hd (asymm hgt)
        | cons q p =>
          simp only [List.cons_append] at e1 e2
          injection e1 with ex _
          injection e2 with ey _
          rw [ex] at hgt
          rw [ey] at hgt
          exact absurd hgt (lt_irrefl q)

/-! Helper lemmas shared by the claim theorems. -/

theorem eq_of_elems_eq {a b : array_3d T D1 D2 D3} (h : a.elems = b.elems) :
    a = b := by
  cases a
  cases b
  cases h
  rfl

theorem head?_eq_get0 (l : List T) : l.head? = l.get? 0 := by
  cases l <;> rfl

theorem back_offset (h1 : 0 < D1) (h2 : 0 < D2) (h3 : 0 < D3) :
    offset D2 D3 (D1 - 1) (D2 - 1) (D3 - 1) + 1 = D1 * D2 * D3 := by
  obtain ⟨a, rfl⟩ : ∃ a, D1 = a + 1 := ⟨D1 - 1, by omega⟩
  obtain ⟨b, rfl⟩ : ∃ b, D2 = b + 1 := ⟨D2 - 1, by omega⟩
  obtain ⟨c, rfl⟩ : ∃ c, D3 = c + 1 := ⟨D3 - 1, by omega⟩
  simp only [Nat.add_sub_cancel]
  unfold offset
  ring

theorem get?_opCall (a : array_3d T D1 D2 D3) (i j k : ℕ)
    (hi : i < D1) (hj : j < D2) (hk : k < D3) :
    a.toList.get? (offset D2 D3 i j k) = some (a.opCall i j k hi hj hk) := by
  have hb : offset D2 D3 i j k < a.toList.length := by
    show offset D2 D3 i j k < a.elems.length
    rw [a.len_eq]
    exact offset_lt hi hj hk
  rw [List.get?_eq_get hb]
  rfl

/-! Concrete instances used by the witnesses: the spec's 2x2x2 scenario
filled with 1..8, a variant differing only at the last flattened
element, a 1x1x1 instance, a zero-dimension instance, and an integer
destination for the converting assignment. -/

def w222 : array_3d ℕ 2 2 2 := ⟨[1, 2, 3, 4, 5, 6, 7, 8], rfl⟩

def w222b : array_3d ℕ 2 2 2 := ⟨[1, 2, 3, 4, 5, 6, 7, 9], rfl⟩

def w111 : array_3d ℕ 1 1 1 := ⟨[3], rfl⟩

def wz : array_3d ℕ 0 2 2 := ⟨[], rfl⟩

def wdst : array_3d ℤ 2 2 2 := ⟨List.replicate 8 0, rfl⟩

/-- C1: `at(i,j,k)` fails with the descriptive out-of-range error exactly
when `i >= D1` or `j >= D2` or `k >= D3`, and on every valid triple it
returns the same element as the unchecked `operator()(i,j,k)`. -/
theorem c1_checked_access (a : array_3d T D1 D2 D3) (i j k : ℕ) :
    (a.at_ i j k = Except.error "array_3d: index out of range" ↔
      D1 ≤ i ∨ D2 ≤ j ∨ D3 ≤ k) ∧
    ∀ (hi : i < D1) (hj : j < D2) (hk : k < D3),
      a.at_ i j k = Except.ok (a.opCall i j k hi hj hk) := by
  constructor
  · unfold array_3d.at_
    split
    · next h => simp [h]
    · next h => simp [h]
  · intro hi hj hk
    unfold array_3d.at_
    rw [dif_neg (show ¬(D1 ≤ i ∨ D2 ≤ j ∨ D3 ≤ k) by omega)]

theorem c1_checked_access_witness :
    w222.at_ 2 0 0 = Except.error "array_3d: index out of range" ∧
    w222.at_ 1 0 1 =
      Except.ok (w222.opCall 1 0 1 (by omega) (by omega) (by omega)) ∧
    w222.opCall 1 0 1 (by omega) (by omega) (by omega) = 6 :=
  ⟨(c1_checked_access w222 2 0 0).1.mpr (by omega),
   (c1_checked_access w222 1 0 1).2 (by omega) (by omega) (by omega),
   by decide⟩

/-- C2: iteration visits exactly `size() = D1*D2*D3` elements in
row-major flattened order — the element at flat position
`i*D2*D3 + j*D3 + k` is the element at coordinates `(i,j,k)` — and
`front()` is the first yielded element while `back()` is the last. -/
theorem c2_iteration_order (a : array_3d T D1 D2 D3) :
    a.toList.length = a.size ∧
    (∀ (i j k : ℕ) (hi : i < D1) (hj : j < D2) (hk : k < D3),
      a.toList.get? (offset D2 D3 i j k) = some (a.opCall i j k hi hj hk)) ∧
    ∀ (h1 : 0 < D1) (h2 : 0 < D2) (h3 : 0 < D3),
      a.toList.head? = some (a.front h1 h2 h3) ∧
      a.toList.getLast? = some (a.back h1 h2 h3) := by
  refine ⟨a.len_eq, fun i j k hi hj hk => get?_opCall a i j k hi hj hk, ?_⟩
  intro h1 h2 h3
  constructor
  · have h0 := get?_opCall a 0 0 0 h1 h2 h3
    rw [show offset D2 D3 0 0 0 = 0 from by simp [offset]] at h0
    rw [head?_eq_get0]
    exact h0
  · rw [List.getLast?_eq_getElem?, ← List.get?_eq_getElem?]
    have e : a.toList.length - 1 = offset D2 D3 (D1 - 1) (D2 - 1) (D3 - 1) := by
      have hb := back_offset h1 h2 h3
      have hl : a.toList.length = D1 * D2 * D3 := a.len_eq
      omega
    rw [e]
    exact get?_opCall a (D1 - 1) (D2 - 1) (D3 - 1) (by omega) (by omega) (by omega)

theorem c2_iteration_order_witness :
    w222.toList.length = w222.size ∧
    w222.toList.get? (offset 2 2 1 0 1) =
      some (w222.opCall 1 0 1 (by omega) (by omega) (by omega)) ∧
    w222.toList.head? = some (w222.front (by omega) (by omega) (by omega)) ∧
    w222.toList.getLast? = some (w222.back (by omega) (by omega) (by omega)) ∧
    w222.front (by omega) (by omega) (by omega) = 1 ∧
    w222.back (by omega) (by omega) (by omega) = 8 := by
  obtain ⟨hl, hg, hfb⟩ := c2_iteration_order w222
  obtain ⟨hf, hb⟩ := hfb (by omega) (by omega) (by omega)
  exact ⟨hl, hg 1 0 1 (by omega) (by omega) (by omega), hf, hb,
    by decide, by decide⟩

/-- C3: converting assignment overwrites every flattened position of the
destination with the conversion of the source element at the same
flattened position, preserving order and every coordinate position. -/
theorem c3_converting_assignment (conv : T2 → T) (dest : array_3d T D1 D2 D3)
    (rhs : array_3d T2 D1 D2 D3) :
    (dest.assign_op conv rhs).toList = rhs.toList.map conv ∧
    ∀ (i j k : ℕ) (hi : i < D1) (hj : j < D2) (hk : k < D3),
      (dest.assign_op conv rhs).opCall i j k hi hj hk =
        conv (rhs.opCall i j k hi hj hk) := by
  have hmap : std_copy conv rhs.elems dest.elems = rhs.elems.map conv :=
    std_copy_map conv rhs.elems dest.elems (by rw [rhs.len_eq, dest.len_eq])
  refine ⟨hmap, ?_⟩
  intro i j k hi hj hk
  have h1 := get?_opCall (dest.assign_op conv rhs) i j k hi hj hk
  have h2 := get?_opCall rhs i j k hi hj hk
  have h3 : (dest.assign_op conv rhs).toList.get? (offset D2 D3 i j k) =
      (rhs.toList.get? (offset D2 D3 i j k)).map conv := by
    show (std_copy conv rhs.elems dest.elems).get? _ = _
    rw [hmap, List.get?_map]
    rfl
  rw [h1, h2] at h3
  simpa using h3

theorem c3_converting_assignment_witness :
    (wdst.assign_op Int.ofNat w222).toList = w222.toList.map Int.ofNat ∧
    (wdst.assign_op Int.ofNat w222).opCall 0 1 1 (by omega) (by omega) (by omega) =
      Int.ofNat (w222.opCall 0 1 1 (by omega) (by omega) (by omega)) ∧
    (wdst.assign_op Int.ofNat w222).toList = [1, 2, 3, 4, 5, 6, 7, 8] :=
  ⟨(c3_converting_assignment Int.ofNat wdst w222).1,
   (c3_converting_assignment Int.ofNat wdst w222).2 0 1 1
     (by omega) (by omega) (by omega),
   by decide⟩

/-- C4: `operator<` is lexicographic over the flattened sequences (the
first differing flattened element decides; equal sequences compare
not-less), and `>`, `<=`, `>=` are the standard derived forms. -/
theorem c4_lexicographic_order [LinearOrder T] (x y : array_3d T D1 D2 D3) :
    (lt_op x y = true ↔ lex_first_diff x.elems y.elems) ∧
    lt_op x x = false ∧
    gt_op x y = lt_op y x ∧
    le_op x y = !lt_op y x ∧
    ge_op x y = !lt_op x y :=
  ⟨std_lex_compare_iff x.elems y.elems (by rw [x.len_eq, y.len_eq]),
   std_lex_compare_irrefl x.elems, rfl, rfl, rfl⟩

theorem c4_lexicographic_order_witness :
    lt_op w222 w222b = true ∧ lt_op w222 w222 = false :=
  ⟨(c4_lexicographic_order w222 w222b).1.mpr
     ⟨[1, 2, 3, 4, 5, 6, 7], 8, 9, [], [], rfl, rfl, by omega⟩,
   (c4_lexicographic_order w222 w222).2.1⟩

/-- C5: `operator==` is true iff every flattened position holds equal
elements, `operator!=` is its negation, and equality is reflexive,
symmetric and transitive. -/
theorem c5_equality [DecidableEq T] (x y z : array_3d T D1 D2 D3) :
    (eq_op x y = true ↔ ∀ p : ℕ, x.toList.get? p = y.toList.get? p) ∧
    ne_op x y = !eq_op x y ∧
    eq_op x x = true ∧
    (eq_op x y = true → eq_op y x = true) ∧
    (eq_op x y = true → eq_op y z = true → eq_op x z = true) := by
  have key : ∀ u v : array_3d T D1 D2 D3, eq_op u v = true ↔ u.elems = v.elems :=
    fun u v => std_equal_iff u.elems v.elems (by rw [u.len_eq, v.len_eq])
  refine ⟨?_, rfl, ?_, ?_, ?_⟩
  · rw [key x y]
    constructor
    · intro h p
      show x.elems.get? p = y.elems.get? p
      rw [h]
    · intro h
      exact List.ext h
  · exact (key x x).mpr rfl
  · intro h
    exact (key y x).mpr ((key x y).mp h).symm
  · intro h1 h2
    exact (key x z).mpr (((key x y).mp h1).trans ((key y z).mp h2))

theorem c5_equality_witness :
    eq_op w222 w222 = true ∧ ne_op w222 w222b = !eq_op w222 w222b :=
  ⟨(c5_equality w222 w222 w222).2.2.2.2
     ((c5_equality w222 w222 w222).2.2.1)
     ((c5_equality w222 w222 w222).2.2.1),
   (c5_equality w222 w222b w222b).2.1⟩

/-- C6: `fill(v)` makes every one of the `D1*D2*D3` elements equal `v`
(so iteration yields `v` everywhere and `front`/`back` are `v` whenever
they are defined, in particular for `D1=D2=D3=1`), and `assign(v)` is
the identical operation. -/
theorem c6_fill_assign (a : array_3d T D1 D2 D3) (v : T) :
    (∀ p : ℕ, p < a.size → (a.fill v).toList.get? p = some v) ∧
    a.assign v = a.fill v ∧
    ∀ (h1 : 0 < D1) (h2 : 0 < D2) (h3 : 0 < D3),
      (a.fill v).front h1 h2 h3 = v ∧ (a.fill v).back h1 h2 h3 = v := by
  have hrep : (a.fill v).elems = List.replicate (D1 * D2 * D3) v := by
    show std_fill_n (D1 * D2 * D3) v a.elems = _
    rw [std_fill_n_all v _ _ (le_of_eq a.len_eq), a.len_eq]
  have hall : ∀ p : ℕ, p < a.size → (a.fill v).toList.get? p = some v := by
    intro p hp
    show (a.fill v).elems.get? p = some v
    rw [hrep]
    have hp' : p < (List.replicate (D1 * D2 * D3) v).length := by
      simpa using hp
    rw [List.get?_eq_get hp']
    simp [List.get_replicate]
  refine ⟨hall, rfl, ?_⟩
  intro h1 h2 h3
  constructor
  · have hg := get?_opCall (a.fill v) 0 0 0 h1 h2 h3
    have hv := hall (offset D2 D3 0 0 0) (offset_lt h1 h2 h3)
    rw [hg] at hv
    exact Option.some.inj hv
  · have hg := get?_opCall (a.fill v) (D1 - 1) (D2 - 1) (D3 - 1)
      (by omega) (by omega) (by omega)
    have hv := hall (offset D2 D3 (D1 - 1) (D2 - 1) (D3 - 1))
      (offset_lt (by omega) (by omega) (by omega))
    rw [hg] at hv
    exact Option.some.inj hv

theorem c6_fill_assign_witness :
    (w111.fill 7).toList.get? 0 = some 7 ∧
    w111.assign 7 = w111.fill 7 ∧
    (w111.fill 7).front (by omega) (by omega) (by omega) = 7 ∧
    (w111.fill 7).back (by omega) (by omega) (by omega) = 7 := by
  obtain ⟨hall, hassign, hfb⟩ := c6_fill_assign w111 7
  obtain ⟨hf, hb⟩ := hfb (by omega) (by omega) (by omega)
  exact ⟨hall 0 (by decide), hassign, hf, hb⟩

/-- C7: `swap` exchanges the full contents of the two containers, and
swapping twice restores the original contents of both. -/
theorem c7_swap_exchange (x y : array_3d T D1 D2 D3) :
    (x.swap y).1 = y ∧ (x.swap y).2 = x ∧
    ((x.swap y).1.swap (x.swap y).2).1 = x ∧
    ((x.swap y).1.swap (x.swap y).2).2 = y := by
  have hxy : x.elems.length = y.elems.length := by rw [x.len_eq, y.len_eq]
  have h1 : (x.swap y).1 = y := eq_of_elems_eq (by
    show (std_swap_ranges x.elems y.elems).1 = y.elems
    rw [std_swap_ranges_eq x.elems y.elems hxy])
  have h2 : (x.swap y).2 = x := eq_of_elems_eq (by
    show (std_swap_ranges x.elems y.elems).2 = x.elems
    rw [std_swap_ranges_eq x.elems y.elems hxy])
  refine ⟨h1, h2, ?_, ?_⟩
  · rw [h1, h2]
    exact eq_of_elems_eq (by
      show (std_swap_ranges y.elems x.elems).1 = x.elems
      rw [std_swap_ranges_eq y.elems x.elems hxy.symm])
  · rw [h1, h2]
    exact eq_of_elems_eq (by
      show (std_swap_ranges y.elems x.elems).2 = y.elems
      rw [std_swap_ranges_eq y.elems x.elems hxy.symm])

/-- C8: `size()` and `max_size()` return `D1*D2*D3`; `size_1d/2d/3d()`
return the three dimensions; `empty()` returns `false` for every
instantiation, including zero-dimension ones where `size()` is `0`. -/
theorem c8_capacity (a : array_3d T D1 D2 D3) :
    a.size = D1 * D2 * D3 ∧ a.max_size = D1 * D2 * D3 ∧
    a.size_1d = D1 ∧ a.size_2d = D2 ∧ a.size_3d = D3 ∧
    a.empty = false ∧
    (D1 * D2 * D3 = 0 → a.size = 0 ∧ a.empty = false) :=
  ⟨rfl, rfl, rfl, rfl, rfl, rfl, fun h => ⟨h, rfl⟩⟩

theorem c8_capacity_witness : wz.size = 0 ∧ wz.empty = false :=
  (c8_capacity wz).2.2.2.2.2.2 (by decide)

/-- C9: `at(i,j,k)` never modifies the container — on the error path as
well as the success path the post-state equals the pre-state, and the
returned result is exactly that of `at`. -/
theorem c9_at_preserves_state (a : array_3d T D1 D2 D3) (i j k : ℕ) :
    (a.atSt i j k).2 = a ∧ (a.atSt i j k).1 = a.at_ i j k := by
  by_cases h : D1 ≤ i ∨ D2 ≤ j ∨ D3 ≤ k
  · simp [array_3d.atSt, array_3d.at_, h]
  · simp [array_3d.atSt, array_3d.at_, h]

/-- C10: self-swap is a no-op — `a.swap(a)` leaves the container
unchanged. -/
theorem c10_self_swap (a : array_3d T D1 D2 D3) :
    (a.swap a).1 = a ∧ (a.swap a).2 = a := by
  have h := std_swap_ranges_eq a.elems a.elems rfl
  exact ⟨eq_of_elems_eq (by
      show (std_swap_ranges a.elems a.elems).1 = a.elems
      rw [h]),
    eq_of_elems_eq (by
      show (std_swap_ranges a.elems a.elems).2 = a.elems
      rw [h])⟩

end fsma
